import Mathlib

/-!
Shallow embedding of the ALFWorld white agent (`white_agent/agent.py`).

Strings are modelled as Lean `String`s; most character-level work happens on
`List Char` (`String.data`).  Python idioms are embedded as follows:

* `str.strip()`            → `pyStrip` (both-ends strip of ASCII whitespace);
* `str.lower()`            → `lowerL` (`Char.toLower` per character);
* `str.split("\n")`        → `splitLines` (keeps empty fields, Python  semantics);
* `needle in haystack`     → `containsSub`;
* `str.replace(pat, "")`   → `removeAll` (left-to-right, non-overlapping);
* `"sep".join(xs)`         → `joinSep`;
* Python `set`             → `Finset String`;
* Python `float`           → `ℚ` (all rewards/scores here are exact small
  rationals, so rational arithmetic coincides with the float values the code
  computes on the inputs of interest);
* the regexes of `VALID_ACTIONS` → a tiny matcher `matchSeq` over an item
  list (`lit`/`dotPlus`).  `re.match` anchors at the start; since every
  pattern ends in `$` and `_is_valid_action` strips its input first (so no
  trailing newline can remain), `$` is modelled as end-of-string.

The OpenAI client is external: a call of it either produces a text or fails
(exception / absent key).  `act` therefore takes the outcome of the primary
call and of the optional retry call as `Option String` arguments (`none`
models "capability absent or the call raised"; the except-branch of the code
only logs, so failure is never propagated — in the embedding `act` is a total
function).
-/

namespace WhiteAgent

/-- Python ASCII whitespace (` \t\n\r\v\f`), as used by `str.strip` / `\s`. -/
def pyWs (c : Char) : Bool :=
  c = ' ' || c = '\t' || c = '\n' || c = '\r' || c = '\x0b' || c = '\x0c'

/-- Drop leading characters satisfying `p`. -/
def dropWhileP (p : Char → Bool) : List Char → List Char
  | [] => []
  | c :: t => if p c then dropWhileP p t else c :: t

/-- Strip characters satisfying `p` from both ends (Python `str.strip(chars)`). -/
def stripP (p : Char → Bool) (l : List Char) : List Char :=
  ((dropWhileP p (dropWhileP p l).reverse)).reverse

/-- Python `str.strip()` on the character list. -/
def pyStrip (l : List Char) : List Char := stripP pyWs l

/-- Python `str.lower()` (ASCII case folding suffices for this code). -/
def lowerL (l : List Char) : List Char := l.map Char.toLower

/-- Python `needle in haystack` for strings. -/
def containsSub (n : List Char) : List Char → Bool
  | [] => n.isEmpty
  | c :: t => n.isPrefixOf (c :: t) || containsSub n t

/-- Helper for `removeAll`, structurally recursive on the scanned list:
`skip` counts characters of an already-recognised occurrence of the pattern
that remain to be discarded. -/
def removeAllAux (pat : List Char) : Nat → List Char → List Char
  | _, [] => []
  | Nat.succ k, _ :: t => removeAllAux pat k t
  | 0, c :: t =>
    if pat ≠ [] ∧ pat.isPrefixOf (c :: t) then removeAllAux pat (pat.length - 1) t
    else c :: removeAllAux pat 0 t

/-- Python `s.replace(pat, "")`: delete every occurrence of `pat`,
scanning left to right, non-overlapping. -/
def removeAll (pat : List Char) (l : List Char) : List Char :=
  removeAllAux pat 0 l

/-- Python `"\n".split` behaviour: split on a single newline, keeping empty
fields (`"".split("\n") = [""]`). -/
def splitLines : List Char → List (List Char)
  | [] => [[]]
  | c :: t =>
    if c = '\n' then [] :: splitLines t
    else
      match splitLines t with
      | [] => [[c]]
      | h :: r => (c :: h) :: r

/-- Python `"sep".join(xs)`. -/
def joinSep (sep : String) : List String → String
  | [] => ""
  | [x] => x
  | x :: y :: t => x ++ sep ++ joinSep sep (y :: t)

/-! ### The regex fragment used by `VALID_ACTIONS`

Every pattern in the source is `^` + a sequence of literal pieces and `.+`
occurrences + `$`.  `.` never matches a newline (no `DOTALL`). -/

/-- One item of a pattern: a literal string or `.+`. -/
inductive RItem where
  | lit : List Char → RItem
  | dotPlus : RItem
deriving DecidableEq

/-- `.+` scan: consume one non-newline character, then either the rest of
the pattern (`next`) matches here, or keep consuming. -/
def dpScan (next : List Char → Bool) : List Char → Bool
  | [] => false
  | c :: t => c ≠ '\n' && (next t || dpScan next t)

/-- Anchored matching of an item sequence against the whole input, with
Python backtracking semantics (`.+` may take any non-zero number of
non-newline characters). -/
def matchSeq : List RItem → List Char → Bool
  | [], l => l.isEmpty
  | RItem.lit w :: rest, l => w.isPrefixOf l && matchSeq rest (l.drop w.length)
  | RItem.dotPlus :: rest, l => dpScan (matchSeq rest) l

/-- `VALID_ACTIONS` from the source, one entry per regex, in order. -/
def VALID_ACTIONS : List (List RItem) :=
  [ [RItem.lit "go to ".data, RItem.dotPlus],
    [RItem.lit "take ".data, RItem.dotPlus, RItem.lit " from ".data, RItem.dotPlus],
    [RItem.lit "put ".data, RItem.dotPlus, RItem.lit " in/on ".data, RItem.dotPlus],
    [RItem.lit "put ".data, RItem.dotPlus, RItem.lit " in ".data, RItem.dotPlus],
    [RItem.lit "put ".data, RItem.dotPlus, RItem.lit " on ".data, RItem.dotPlus],
    [RItem.lit "open ".data, RItem.dotPlus],
    [RItem.lit "close ".data, RItem.dotPlus],
    [RItem.lit "toggle ".data, RItem.dotPlus],
    [RItem.lit "heat ".data, RItem.dotPlus, RItem.lit " with ".data, RItem.dotPlus],
    [RItem.lit "cool ".data, RItem.dotPlus, RItem.lit " with ".data, RItem.dotPlus],
    [RItem.lit "clean ".data, RItem.dotPlus, RItem.lit " with ".data, RItem.dotPlus],
    [RItem.lit "use ".data, RItem.dotPlus],
    [RItem.lit "examine ".data, RItem.dotPlus],
    [RItem.lit "look".data],
    [RItem.lit "inventory".data],
    [RItem.lit "turn on ".data, RItem.dotPlus],
    [RItem.lit "turn off ".data, RItem.dotPlus] ]

/-- `WhiteAgent._is_valid_action`, on the character list
(`action.lower().strip()` then first-match over `VALID_ACTIONS`). -/
def is_valid_actionL (action : List Char) : Bool :=
  VALID_ACTIONS.any (fun p => matchSeq p (pyStrip (lowerL action)))

/-- `WhiteAgent._is_valid_action`. -/
def is_valid_action (action : String) : Bool :=
  is_valid_actionL action.data

/-! ### Response parser (`_extract_action`) -/

/-- The apostrophe character (codepoint 39). -/
def quoteChar : Char := Char.ofNat 39

/-- The backquote character (codepoint 96). -/
def backquoteChar : Char := Char.ofNat 96

/-- The three characters stripped by `candidate.strip('"\x27\x60')`. -/
def isQuote (c : Char) : Bool := c = '"' || c = quoteChar || c = backquoteChar

/-- `re.sub(r'^(action:|Action:|ACTION:)\s*', '', line)`: the label is removed
only in these three exact spellings, each followed by greedy whitespace. -/
def stripActionLabel (l : List Char) : List Char :=
  if "action:".data.isPrefixOf l then dropWhileP pyWs (l.drop 7)
  else if "Action:".data.isPrefixOf l then dropWhileP pyWs (l.drop 7)
  else if "ACTION:".data.isPrefixOf l then dropWhileP pyWs (l.drop 7)
  else l

/-- Quote stripping followed by label stripping, as applied to each candidate
line in `_extract_action`. -/
def cleanLine (l : List Char) : List Char := stripActionLabel (stripP isQuote l)

/-- A line opening with a think marker (`> think:` or `>think:`). -/
def isThinkLine (l : List Char) : Bool :=
  "> think:".data.isPrefixOf l || ">think:".data.isPrefixOf l

/-- The `action_lines` list of `_extract_action`: strip the whole content,
split on newlines, strip each line, and drop think-marker and empty lines. -/
def actionLines (content : String) : List (List Char) :=
  ((splitLines (pyStrip content.data)).map pyStrip).filter
    (fun l => !(isThinkLine l) && !l.isEmpty)

/-- `WhiteAgent._extract_action`. -/
def extract_action (content : String) : String :=
  if content = "" then "look"
  else
    let als := actionLines content
    match als.getLast? with
    | none => "look"
    | some last =>
      let candidate := cleanLine last
      if is_valid_actionL candidate then String.mk candidate
      else
        match als.reverse.findSome?
            (fun line =>
              let cleaned := cleanLine line
              if is_valid_actionL cleaned then some cleaned else none) with
        | some cleaned => String.mk cleaned
        | none => if candidate.isEmpty then "look" else String.mk candidate

/-- `WhiteAgent._fallback_action`. -/
def fallback_action (observation : String) : String :=
  let obs := lowerL observation.data
  if containsSub "lamp".data obs && containsSub "off".data obs then "turn on lamp"
  else if containsSub "fridge".data obs && containsSub "apple".data obs then "put apple in fridge"
  else if containsSub "inventory".data obs then "inventory"
  else "look"

/-! ### Data model -/

/-- One conversation entry (a Python `{"role": ..., "content": ...}` dict). -/
structure Msg where
  role : String
  content : String
deriving DecidableEq

/-- One trajectory record as appended by `observe`. -/
structure TransRec where
  observation : String
  action : String
  reward : ℚ
  done : Bool
  feedback : Option String
deriving DecidableEq

/-- The `self.state` dict.  The Python dict starts empty and keys are read
through `.get` with defaults, so the embedding gives every key its default
value up front (`0`, `[]`, `none`, `∅`, `false`). -/
structure AgentState where
  step : Nat
  history : List Msg
  trajectory : List TransRec
  last_observation : String
  last_action : Option String
  opened_containers : Finset String
  closed_containers : Finset String
  action_sequence : List String
  last_reward : ℚ
  done : Bool
deriving DecidableEq

/-- The freshly-constructed `self.state = {}` of `__init__`, with all
`.get` defaults materialised. -/
def initialState : AgentState :=
  { step := 0, history := [], trajectory := [], last_observation := "",
    last_action := none, opened_containers := ∅, closed_containers := ∅,
    action_sequence := [], last_reward := 0, done := false }

/-- The agent object: configuration, the cross-episode reflection store and
the per-episode state. -/
structure Agent where
  system_prompt : String
  max_reflections : Nat
  track_cleanup : Bool
  reflections : List String
  state : AgentState
deriving DecidableEq

/-- `WhiteAgent._recent_lessons`. -/
def recent_lessons (a : Agent) : String :=
  if a.reflections.isEmpty then ""
  else "Recent lessons from past episodes:\n- " ++
    joinSep "\n- " (a.reflections.take a.max_reflections)

/-- `WhiteAgent._build_system_prompt`. -/
def build_system_prompt (a : Agent) : String :=
  let lessons := recent_lessons a
  if lessons ≠ "" then a.system_prompt ++ "\n\n---\n" ++ lessons
  else a.system_prompt

/-- `WhiteAgent.reset`, on the `isinstance(env_info, str)` branch (the claims
are about observation text).  Returns the echoed observation and the updated
agent. -/
def reset (a : Agent) (obs : String) : String × Agent :=
  (obs,
   { a with
     state :=
       { step := 0,
         history := [Msg.mk "system" (build_system_prompt a),
                     Msg.mk "user" ("Observation: " ++ obs)],
         trajectory := [], last_observation := obs, last_action := none,
         opened_containers := ∅, closed_containers := ∅, action_sequence := [],
         last_reward := 0, done := false } })

/-- `WhiteAgent._detect_repetition` (`last` is falsy when `None` or empty). -/
def detect_repetition (st : AgentState) (action : String) : Bool :=
  match st.last_action with
  | none => false
  | some last =>
    last ≠ "" && (pyStrip (lowerL action.data) == pyStrip (lowerL last.data))

/-- `WhiteAgent._detect_cycle`.  `seq[-(window-1):]` is the whole list when
`window - 1 = 0` (Python negative-zero slice), and the last `window - 1`
elements otherwise; `recent[-k]` for `k ≤ 4` is safe under the length
guard. -/
def detect_cycle (st : AgentState) (action : String) (window : Nat) : Bool :=
  let seq := st.action_sequence
  if seq.length < window - 1 then false
  else
    let recent :=
      (if window - 1 = 0 then seq else seq.drop (seq.length - (window - 1))) ++ [action]
    if 4 ≤ recent.length then
      ((recent.getD (recent.length - 1) "") == (recent.getD (recent.length - 3) "")) &&
      ((recent.getD (recent.length - 2) "") == (recent.getD (recent.length - 4) ""))
    else false

/-- `WhiteAgent._track_container` (the `observation` parameter of the source
is unused there and omitted).  `action_lower.replace("open ", "")` deletes
every occurrence of the verb, hence `removeAll`. -/
def track_container (st : AgentState) (action : String) : AgentState :=
  let action_lower := lowerL action.data
  let openName := String.mk (pyStrip (removeAll "open ".data action_lower))
  let closeName := String.mk (pyStrip (removeAll "close ".data action_lower))
  let st1 :=
    if "open ".data.isPrefixOf action_lower then
      { st with opened_containers := insert openName st.opened_containers }
    else st
  if "close ".data.isPrefixOf action_lower then
    { st1 with closed_containers := insert closeName st1.closed_containers }
  else st1

/-- `WhiteAgent._calculate_cleanup_score` (float division modelled on `ℚ`). -/
def calculate_cleanup_score (st : AgentState) : ℚ :=
  if st.opened_containers = ∅ then 1
  else ((st.opened_containers ∩ st.closed_containers).card : ℚ) /
    (st.opened_containers.card : ℚ)

/-- `WhiteAgent.act`.  `llm` is the outcome of the primary model call
(`none` = client absent, or the call raised before producing content);
`retryLlm` is the outcome of the repetition-retry call (`none` = absent or
raised; the `except` branch only logs, keeping the values of the first
call). -/
def act (a : Agent) (llm : Option String) (retryLlm : Option String)
    (obs : String) : String × Agent :=
  let st := { a.state with last_observation := obs }
  let hs : List Msg × Nat :=
    match st.history.getLast? with
    | some m =>
      if m.role = "assistant" then
        (st.history ++ [Msg.mk "user" ("Observation: " ++ obs)], st.step)
      else (st.history, st.step)
    | none =>
      ([Msg.mk "system" (build_system_prompt a),
        Msg.mk "user" ("Observation: " ++ obs)], 0)
  let ca : Option String × Option String :=
    match llm with
    | none => (none, none)
    | some raw =>
      let content := String.mk (pyStrip raw.data)
      let action1 := extract_action content
      if detect_repetition st action1 then
        match retryLlm with
        | none => (some content, some action1)
        | some rraw =>
          let rcontent := String.mk (pyStrip rraw.data)
          let raction := extract_action rcontent
          if raction ≠ action1 then (some rcontent, some raction)
          else (some content, some action1)
      else (some content, some action1)
  let action :=
    match ca.2 with
    | some x => if x ≠ "" then x else fallback_action obs
    | none => fallback_action obs
  let content :=
    match ca.1 with
    | some c => if c ≠ "" then c else action
    | none => action
  (action,
   { a with
     state :=
       { st with
         history := hs.1 ++ [Msg.mk "assistant" content],
         step := hs.2,
         last_action := some action,
         action_sequence := st.action_sequence ++ [action] } })

/-! ### Reflection engine -/

/-- One step of the Python dict-counting loop
(`action_counts[a] = action_counts.get(a, 0) + 1`): an existing key keeps its
position, a new key is appended. -/
def bump (k : String) : List (String × Nat) → List (String × Nat)
  | [] => [(k, 1)]
  | (k2, n) :: t => if k2 = k then (k2, n + 1) :: t else (k2, n) :: bump k t

/-- The `action_counts` dict in insertion order. -/
def dictCounts (l : List String) : List (String × Nat) :=
  l.foldl (fun acc a => bump a acc) []

/-- The navigation-cycle scan of `_summarize_trajectory`
(`actions[i] == actions[i+2] and actions[i+1] == actions[i+3]` for some i). -/
def hasABAB : List String → Bool
  | a :: b :: c :: d :: rest => (a == c && b == d) || hasABAB (b :: c :: d :: rest)
  | _ => false

/-- `WhiteAgent._summarize_trajectory`. -/
def summarize_trajectory (a : Agent) : String :=
  let traj := a.state.trajectory
  match traj.getLast? with
  | none => "No trajectory recorded."
  | some last =>
    let lessons0 : List String := []
    let lessons1 :=
      if calculate_cleanup_score a.state < 1 then
        lessons0 ++ ["Always close containers/appliances after use."]
      else lessons0
    let actions := traj.map (fun t => t.action)
    let repeated := ((dictCounts actions).filter (fun p => 3 ≤ p.2)).map Prod.fst
    let lessons2 :=
      match repeated.head? with
      | some r => lessons1 ++ ["Avoid repeating actions like \x27" ++ r ++ "\x27 excessively."]
      | none => lessons1
    let lessons3 :=
      if hasABAB actions then
        lessons2 ++ ["Avoid navigation loops (going back and forth)."]
      else lessons2
    let lessons4 :=
      if 0 < last.reward then
        lessons3 ++ ["Success: completed with \x27" ++ last.action ++ "\x27."]
      else if last.done then
        let lo := lowerL last.observation.data
        if containsSub "clean".data lo || containsSub "dirty".data lo then
          lessons3 ++ ["Verify object state (clean/dirty) before placing."]
        else if containsSub "hot".data lo || containsSub "cold".data lo then
          lessons3 ++ ["Verify temperature state before placing."]
        else lessons3 ++ ["Try alternative exploration paths when stuck."]
      else lessons3
    let lessons5 :=
      if lessons4.isEmpty then ["Continue systematic exploration."] else lessons4
    joinSep " " (lessons5.take 2)

/-- `WhiteAgent._add_reflection`. -/
def add_reflection (reflections : List String) (max_reflections : Nat)
    (reflection : String) : List String :=
  if reflection ≠ "" then
    let rs := reflection :: reflections
    if max_reflections < rs.length then rs.take max_reflections else rs
  else reflections

/-- Round half to even, as Python float formatting does. -/
def roundHalfEven (q : ℚ) : ℤ :=
  let f := ⌊q⌋
  let r := q - f
  if r < 1 / 2 then f else if 1 / 2 < r then f + 1
  else if f % 2 = 0 then f else f + 1

/-- Model of the `f"{score:.0%}"` percent formatting of the episode-end
message.  No claim depends on this rendering. -/
def pctRepr (q : ℚ) : String := toString (roundHalfEven (q * 100)) ++ "%"

/-- Model of the `f"{reward}"` float formatting of the episode-end message.
No claim depends on this rendering. -/
def floatRepr (q : ℚ) : String :=
  if q.den = 1 then toString q.num ++ ".0" else toString q

/-- `WhiteAgent.observe`.  `feedback` models `info.get("feedback")` (with
`none` when `info` is not a dict or has no feedback; a present value is
appended to the episode-end message only when non-empty, Python
truthiness). -/
def observe (a : Agent) (action : String) (reward : ℚ) (don : Bool)
    (feedback : Option String) : Agent :=
  let st1 := { a.state with step := a.state.step + 1, last_reward := reward, done := don }
  let st2 := if a.track_cleanup then track_container st1 action else st1
  let st3 := { st2 with trajectory :=
    st2.trajectory ++ [TransRec.mk st2.last_observation action reward don feedback] }
  if don then
    let reflection := summarize_trajectory { a with state := st3 }
    let refls := add_reflection a.reflections a.max_reflections reflection
    let cleanup := calculate_cleanup_score st3
    let end_msg :=
      "Episode finished. Reward: " ++ floatRepr reward ++ ". Cleanup score: " ++
        pctRepr cleanup ++ "." ++
        (match feedback with
         | some f => if f ≠ "" then " Evaluator feedback: " ++ f else ""
         | none => "")
    { a with
      reflections := refls,
      state := { st3 with history :=
        st3.history ++ [Msg.mk "user" end_msg,
                        Msg.mk "system" ("Lesson learned: " ++ reflection)] } }
  else { a with state := st3 }

/-- `WhiteAgent.get_episode_stats`. -/
def get_episode_stats (a : Agent) : Nat × ℚ × ℚ × Nat × Nat :=
  (a.state.step, a.state.last_reward, calculate_cleanup_score a.state,
   a.state.trajectory.length, a.reflections.length)

/-! ### Generic helper lemmas -/

lemma containsSub_self (n : List Char) : containsSub n n = true := by
  cases n with
  | nil => rfl
  | cons c t => simp [containsSub, List.isPrefixOf_iff_prefix]

lemma containsSub_append (n a b : List Char) : containsSub n (a ++ n ++ b) = true := by
  induction a with
  | nil =>
    cases n with
    | nil =>
      cases b with
      | nil => rfl
      | cons c t => simp [containsSub]
    | cons c t =>
      simp only [List.nil_append, List.cons_append, containsSub, Bool.or_eq_true]
      left
      rw [List.isPrefixOf_iff_prefix]
      exact ⟨b, by simp⟩
  | cons c a ih =>
    simp only [List.cons_append, containsSub, Bool.or_eq_true]
    right
    exact ih

lemma joinSep_cons (sep x : String) (xs : List String) :
    ∃ suf, joinSep sep (x :: xs) = x ++ suf := by
  cases xs with
  | nil => exact ⟨"", by simp [joinSep]⟩
  | cons y t => exact ⟨sep ++ joinSep sep (y :: t), by simp [joinSep, String.append_assoc]⟩

lemma string_mk_ne_empty (l : List Char) (h : l ≠ []) : String.mk l ≠ "" := by
  intro he
  exact h (congrArg String.data he)

lemma append_ne_empty_left (s t : String) (h : s ≠ "") : s ++ t ≠ "" := by
  intro he
  have hd : s.data ++ t.data = [] := by
    have := congrArg String.data he
    simpa [String.data_append] using this
  have : s.data = [] := (List.append_eq_nil.mp hd).1
  exact h (by cases s; simp_all)

lemma containsSub_nil_left : ∀ b : List Char, containsSub [] b = true := by
  intro b
  cases b <;> simp [containsSub]

lemma containsSub_append_left (n a hay : List Char) (h : containsSub n hay = true) :
    containsSub n (a ++ hay) = true := by
  induction a with
  | nil => exact h
  | cons c t ih => simp [containsSub, ih]

lemma containsSub_append_right (n hay b : List Char) (h : containsSub n hay = true) :
    containsSub n (hay ++ b) = true := by
  induction hay with
  | nil =>
    have hn : n = [] := by
      cases n with
      | nil => rfl
      | cons c t => simp [containsSub] at h
    rw [hn]
    exact containsSub_nil_left b
  | cons c t ih =>
    simp only [containsSub, Bool.or_eq_true] at h
    rcases h with h | h
    · rw [List.isPrefixOf_iff_prefix] at h
      have : n <+: (c :: t) ++ b := h.trans (List.prefix_append _ _)
      simp only [List.cons_append, containsSub, Bool.or_eq_true]
      left
      rw [List.isPrefixOf_iff_prefix]
      simpa using this
    · simp [containsSub, ih h]

/-! ### Claim C9 -/

/-- C9: `reset t` returns `t` unchanged, and afterwards the history's first
entry has role "system" and its second entry has role "user" with content
containing the substring "Observation: " followed by `t`. -/
theorem reset_echo_round_trip (a : Agent) (t : String) :
    (reset a t).1 = t ∧
    (∃ p, (reset a t).2.state.history[0]? = some (Msg.mk "system" p)) ∧
    (∃ c, (reset a t).2.state.history[1]? = some (Msg.mk "user" c) ∧
      containsSub ("Observation: " ++ t).data c.data = true) := by
  exact ⟨rfl, ⟨build_system_prompt a, rfl⟩,
    ⟨"Observation: " ++ t, rfl, containsSub_self _⟩⟩

/-! ### Claim C10 -/

/-- C10: `observe` with done=false leaves the conversation history, the
reflection store, the configuration, and the remaining episode fields
(`last_observation`, `last_action`, `action_sequence`) unchanged; only
`step`, `last_reward`, `done`, the container sets and the trajectory may
change. -/
theorem observe_not_done_frame (a : Agent) (action : String) (reward : ℚ)
    (fb : Option String) :
    (observe a action reward false fb).state.history = a.state.history ∧
    (observe a action reward false fb).reflections = a.reflections ∧
    (observe a action reward false fb).system_prompt = a.system_prompt ∧
    (observe a action reward false fb).max_reflections = a.max_reflections ∧
    (observe a action reward false fb).track_cleanup = a.track_cleanup ∧
    (observe a action reward false fb).state.last_observation = a.state.last_observation ∧
    (observe a action reward false fb).state.last_action = a.state.last_action ∧
    (observe a action reward false fb).state.action_sequence = a.state.action_sequence := by
  simp only [observe, Bool.false_eq_true, if_false]
  by_cases h : a.track_cleanup
  · simp only [h, if_true, track_container]
    split <;> split <;> simp
  · simp [h]

/-! ### Claim C3 -/

lemma add_reflection_take (refls : List String) (maxR : Nat) (r : String) (hr : r ≠ "") :
    add_reflection refls maxR r = (r :: refls).take maxR := by
  unfold add_reflection
  rw [if_pos hr]
  dsimp only
  split
  · rfl
  · rename_i h2
    simp only [List.length_cons, not_lt] at h2
    exact (List.take_of_length_le h2).symm

/-- C3: `add_reflection` inserts a (non-empty) lesson at the front and
truncates from the tail, so the store built from any sequence of episode
lessons never exceeds `max_reflections` (assumed positive, as in the
claim). -/
theorem add_reflection_bounded (maxR : Nat) (_hpos : 1 ≤ maxR) :
    (∀ lessons : List String,
      (lessons.foldl (fun refls r => add_reflection refls maxR r) []).length ≤ maxR) ∧
    (∀ (refls : List String) (r : String), r ≠ "" →
      add_reflection refls maxR r = (r :: refls).take maxR) := by
  constructor
  · have aux : ∀ (lessons init : List String), init.length ≤ maxR →
        (lessons.foldl (fun refls r => add_reflection refls maxR r) init).length ≤ maxR := by
      intro lessons
      induction lessons with
      | nil => intro init h; exact h
      | cons r t ih =>
        intro init h
        simp only [List.foldl_cons]
        apply ih
        unfold add_reflection
        split
        · dsimp only
          split
          · simp
          · rename_i h2
            simp only [List.length_cons, not_lt] at h2
            simp only [List.length_cons]
            omega
        · exact h
    intro lessons
    exact aux lessons [] (Nat.zero_le maxR)
  · intro refls r hr
    exact add_reflection_take refls maxR r hr

/-- Witness for C3 at concrete inputs: four completed episodes with
capacity 3 leave at most 3 lessons, and a fresh lesson lands at the front. -/
theorem add_reflection_bounded_witness :
    ((["a", "b", "c", "d"].foldl (fun refls r => add_reflection refls 3 r) []).length ≤ 3) ∧
    add_reflection ["x"] 3 "y" = ["y", "x"] := by
  refine ⟨(add_reflection_bounded 3 (by decide)).1 ["a", "b", "c", "d"], ?_⟩
  rw [(add_reflection_bounded 3 (by decide)).2 ["x"] "y" (by decide)]
  decide

/-! ### Claim C8 -/

/-- C8: with window 4, `detect_cycle` is false when fewer than 3 prior
actions exist, and otherwise is true iff the 4-element tail
`[s(n-3), s(n-2), s(n-1), cand]` satisfies position[-1]==position[-3] and
position[-2]==position[-4], i.e. `cand = s(n-2)` and `s(n-1) = s(n-3)`. -/
theorem detect_cycle_spec (st : AgentState) (cand : String) :
    (st.action_sequence.length < 3 → detect_cycle st cand 4 = false) ∧
    (3 ≤ st.action_sequence.length →
      (detect_cycle st cand 4 = true ↔
        (cand = st.action_sequence.getD (st.action_sequence.length - 2) "" ∧
         st.action_sequence.getD (st.action_sequence.length - 1) "" =
           st.action_sequence.getD (st.action_sequence.length - 3) ""))) := by
  constructor
  · intro h
    simp only [detect_cycle]
    rw [if_pos (by omega)]
  · intro h
    simp only [detect_cycle]
    rw [if_neg (by omega)]
    rw [if_neg (show ¬((4:Nat) - 1 = 0) from by decide)]
    have hlen : (st.action_sequence.drop (st.action_sequence.length - 3)).length = 3 := by
      rw [List.length_drop]; omega
    obtain ⟨x, y, z, hxyz⟩ := List.length_eq_three.mp hlen
    have hdrop : ∀ i, (st.action_sequence.drop (st.action_sequence.length - 3)).getD i "" =
        st.action_sequence.getD (st.action_sequence.length - 3 + i) "" := by
      intro i
      rw [List.getD_eq_getElem?_getD, List.getD_eq_getElem?_getD, List.getElem?_drop]
    have hx : st.action_sequence.getD (st.action_sequence.length - 3) "" = x := by
      have h0 := hdrop 0
      rw [hxyz] at h0
      simpa using h0.symm
    have hy : st.action_sequence.getD (st.action_sequence.length - 2) "" = y := by
      have h1 := hdrop 1
      rw [hxyz] at h1
      rw [show st.action_sequence.length - 3 + 1 = st.action_sequence.length - 2 from by omega] at h1
      simpa using h1.symm
    have hz : st.action_sequence.getD (st.action_sequence.length - 1) "" = z := by
      have h2 := hdrop 2
      rw [hxyz] at h2
      rw [show st.action_sequence.length - 3 + 2 = st.action_sequence.length - 1 from by omega] at h2
      simpa using h2.symm
    rw [hxyz, hx, hy, hz]
    simp [List.getD]

/-- Witness for C8: the sequence ["go to a","go to b","go to a"] with
candidate "go to b" is detected as an A,B,A,B cycle. -/
theorem detect_cycle_spec_witness :
    3 ≤ (["go to a", "go to b", "go to a"] : List String).length ∧
    detect_cycle { initialState with action_sequence := ["go to a", "go to b", "go to a"] }
      "go to b" 4 = true := by
  refine ⟨by decide, ?_⟩
  exact ((detect_cycle_spec
      { initialState with action_sequence := ["go to a", "go to b", "go to a"] }
      "go to b").2 (by decide)).mpr (by decide)

/-! ### Claim C4 -/

/-- Claim-side cleaner, following claim C4's words: the leading "action:"
label is stripped case-insensitively.  Comparison definition for C4; the
source (`cleanLine`) only strips the three exact spellings. -/
def cleanLineClaim (l : List Char) : List Char :=
  let s := stripP isQuote l
  if lowerL (s.take 7) == "action:".data then dropWhileP pyWs (s.drop 7) else s

/-- The parser as claim C4 states it (case-insensitive label strip; when
nothing validates, the cleaned primary candidate is returned even if empty).
Comparison definition for the C4 counterexample. -/
def extract_action_claim (content : String) : String :=
  if content = "" then "look"
  else
    let als := actionLines content
    match als.getLast? with
    | none => "look"
    | some last =>
      let candidate := cleanLineClaim last
      if is_valid_actionL candidate then String.mk candidate
      else
        match als.reverse.findSome?
            (fun line =>
              let cleaned := cleanLineClaim line
              if is_valid_actionL cleaned then some cleaned else none) with
        | some cleaned => String.mk cleaned
        | none => String.mk candidate

/-- Amended claim-side description of the parser: work through the cleaned
lines in reverse; the head (the cleaned primary candidate) is returned when
it validates, otherwise the first validating cleaned line among the rest,
otherwise the cleaned primary candidate — except that "look" replaces an
empty result. -/
def extract_action_spec (content : String) : String :=
  match (actionLines content).reverse.map cleanLine with
  | [] => "look"
  | cand :: rest =>
    if is_valid_actionL cand then String.mk cand
    else
      match rest.find? is_valid_actionL with
      | some c => String.mk c
      | none => if cand.isEmpty then "look" else String.mk cand

/-- C4 counterexample: the label strip is not case-insensitive ("aCtion:" is
kept), and an input whose cleaned primary candidate is empty yields "look",
not the empty cleaned candidate the claim describes. -/
theorem extract_action_counterexample :
    extract_action "aCtion: look" = "aCtion: look" ∧
    extract_action_claim "aCtion: look" = "look" ∧
    extract_action "action:" = "look" ∧
    extract_action_claim "action:" = "" := by
  exact ⟨by decide, by decide, by decide, by decide⟩

lemma findSome?_if_map (g : List Char → List Char) (p : List Char → Bool) :
    ∀ xs : List (List Char),
      xs.findSome? (fun x => let c := g x; if p c then some c else none) =
        (xs.map g).find? p := by
  intro xs
  induction xs with
  | nil => rfl
  | cons x t ih =>
    simp only [List.findSome?_cons, List.map_cons]
    cases hp : p (g x) with
    | true => simp [hp]
    | false => simp [hp, ih]

lemma extract_action_eq_spec_aux : ∀ content : String,
    extract_action content = extract_action_spec content := by
  intro content
  by_cases hc : content = ""
  · subst hc; decide
  · simp only [extract_action, extract_action_spec, if_neg hc]
    cases hrev : (actionLines content).reverse with
    | nil =>
      have h0 : actionLines content = [] := by simpa using congrArg List.reverse hrev
      simp [h0]
    | cons x rest =>
      have hlast : (actionLines content).getLast? = some x := by
        rw [← List.head?_reverse, hrev]; rfl
      rw [hlast]
      dsimp only
      cases hv : is_valid_actionL (cleanLine x) with
      | true => simp [hv]
      | false =>
        rw [findSome?_if_map]
        simp only [hv, Bool.false_eq_true, if_false, List.map_cons]
        rw [List.find?_cons_of_neg _ (by simp [hv])]

/-- C4 amended: `extract_action` equals the claim-side description
`extract_action_spec` on every input — empty or all-blank/think input gives
"look"; otherwise the cleaned primary candidate (last remaining line,
quotes stripped, exact-spelling "action:"/"Action:"/"ACTION:" label
stripped) is returned when it validates, else the first validating cleaned
line scanning the remaining lines in reverse, else the cleaned primary
candidate itself, with "look" replacing an empty result; no failure path
exists. -/
theorem extract_action_amended : ∀ content : String,
    extract_action content = extract_action_spec content :=
  extract_action_eq_spec_aux

lemma valid_ne_nil : ∀ l, is_valid_actionL l = true → l ≠ [] := by
  intro l h hl
  subst hl
  exact absurd h (by decide)

lemma extract_action_ne_empty : ∀ c : String, extract_action c ≠ "" := by
  intro c
  rw [extract_action_eq_spec_aux]
  unfold extract_action_spec
  cases hm : (actionLines c).reverse.map cleanLine with
  | nil => decide
  | cons cand rest =>
    dsimp only
    cases hv : is_valid_actionL cand with
    | true =>
      rw [if_pos rfl]
      exact string_mk_ne_empty cand (valid_ne_nil cand hv)
    | false =>
      rw [if_neg (by decide)]
      cases hf : rest.find? is_valid_actionL with
      | some cfound =>
        have hcf : is_valid_actionL cfound = true := List.find?_some hf
        dsimp only
        exact string_mk_ne_empty cfound (valid_ne_nil cfound hcf)
      | none =>
        dsimp only
        cases hce : cand.isEmpty with
        | true => rw [if_pos rfl]; decide
        | false =>
          rw [if_neg (by decide)]
          exact string_mk_ne_empty cand (by simpa using hce)

/-! ### Claim C1 -/

/-- A concrete agent (fresh construction, no reflections) used by witnesses. -/
def testAgent : Agent :=
  { system_prompt := "You are an ALFWorld agent.", max_reflections := 3,
    track_cleanup := true, reflections := [], state := initialState }

lemma fallback_action_ne_empty_valid (obs : String) :
    fallback_action obs ≠ "" ∧ is_valid_action (fallback_action obs) = true := by
  simp only [fallback_action]
  split
  · exact ⟨by decide, by decide⟩
  · split
    · exact ⟨by decide, by decide⟩
    · split
      · exact ⟨by decide, by decide⟩
      · exact ⟨by decide, by decide⟩

/-- C1: when the model capability is absent or its call fails (`llm = none`),
`act` returns the keyword-heuristic fallback over the lower-cased
observation; the fallback follows the stated keyword cascade
(lamp+off → "turn on lamp"; else fridge+apple → "put apple in fridge"; else
inventory → "inventory"; else "look") and is always a non-empty,
grammar-valid command; moreover `act` returns a non-empty string for every
model outcome, and — being modelled as a total function whose failure cases
are the `none` arguments — it never propagates the capability's failure. -/
theorem act_fallback_and_totality (a : Agent) (retryLlm : Option String) (obs : String) :
    ((act a none retryLlm obs).1 = fallback_action obs) ∧
    (∀ llm, (act a llm retryLlm obs).1 ≠ "") ∧
    (fallback_action obs ≠ "" ∧ is_valid_action (fallback_action obs) = true) ∧
    ((containsSub "lamp".data (lowerL obs.data) && containsSub "off".data (lowerL obs.data)) = true →
      fallback_action obs = "turn on lamp") ∧
    ((containsSub "lamp".data (lowerL obs.data) && containsSub "off".data (lowerL obs.data)) = false →
      (containsSub "fridge".data (lowerL obs.data) && containsSub "apple".data (lowerL obs.data)) = true →
      fallback_action obs = "put apple in fridge") ∧
    ((containsSub "lamp".data (lowerL obs.data) && containsSub "off".data (lowerL obs.data)) = false →
      (containsSub "fridge".data (lowerL obs.data) && containsSub "apple".data (lowerL obs.data)) = false →
      containsSub "inventory".data (lowerL obs.data) = true →
      fallback_action obs = "inventory") ∧
    ((containsSub "lamp".data (lowerL obs.data) && containsSub "off".data (lowerL obs.data)) = false →
      (containsSub "fridge".data (lowerL obs.data) && containsSub "apple".data (lowerL obs.data)) = false →
      containsSub "inventory".data (lowerL obs.data) = false →
      fallback_action obs = "look") := by
  refine ⟨rfl, ?_, fallback_action_ne_empty_valid obs, ?_, ?_, ?_, ?_⟩
  · intro llm
    cases llm with
    | none =>
      show fallback_action obs ≠ ""
      exact (fallback_action_ne_empty_valid obs).1
    | some raw =>
      simp only [act]
      split
      · split
        · assumption
        · exact (fallback_action_ne_empty_valid obs).1
      · exact (fallback_action_ne_empty_valid obs).1
  · intro h1
    simp only [fallback_action]
    rw [if_pos h1]
  · intro h1 h2
    simp only [fallback_action]
    rw [if_neg (by simp [h1]), if_pos h2]
  · intro h1 h2 h3
    simp only [fallback_action]
    rw [if_neg (by simp [h1]), if_neg (by simp [h2]), if_pos h3]
  · intro h1 h2 h3
    simp only [fallback_action]
    rw [if_neg (by simp [h1]), if_neg (by simp [h2]), if_neg (by simp [h3])]

/-- Witness for C1: without a model, an observation mentioning an off lamp
deterministically yields "turn on lamp" from `act`. -/
theorem act_fallback_witness :
    (containsSub "lamp".data (lowerL "the lamp is off".data) &&
      containsSub "off".data (lowerL "the lamp is off".data)) = true ∧
    (act testAgent none none "the lamp is off").1 = "turn on lamp" := by
  have h := act_fallback_and_totality testAgent none "the lamp is off"
  refine ⟨by decide, ?_⟩
  rw [h.1, h.2.2.2.1 (by decide)]

/-! ### Claim C6 -/

/-- C6 counterexample: the claim says `track` adds the trimmed remainder of
the string after the verb prefix ("open open box" → "open box"), but the
code deletes every occurrence of "open " (Python `str.replace`) and records
"box" instead. -/
theorem track_container_counterexample :
    (track_container initialState "open open box").opened_containers = {"box"} ∧
    ("open box" ∉ (track_container initialState "open open box").opened_containers) := by
  constructor
  · decide
  · decide

/-- C6 amended: `track` updates `opened_containers` (resp.
`closed_containers`) exactly when the lower-cased action starts with
"open " (resp. "close "), adding the trimmed result of deleting every
occurrence of the verb prefix from the lower-cased action; `cleanup_score`
is 1 with no opened containers and |opened ∩ closed| / |opened|
otherwise. -/
theorem track_and_cleanup_spec (st : AgentState) (action : String) :
    ((track_container st action).opened_containers =
      (if "open ".data.isPrefixOf (lowerL action.data) then
        insert (String.mk (pyStrip (removeAll "open ".data (lowerL action.data))))
          st.opened_containers
      else st.opened_containers)) ∧
    ((track_container st action).closed_containers =
      (if "close ".data.isPrefixOf (lowerL action.data) then
        insert (String.mk (pyStrip (removeAll "close ".data (lowerL action.data))))
          st.closed_containers
      else st.closed_containers)) ∧
    (st.opened_containers = ∅ → calculate_cleanup_score st = 1) ∧
    (st.opened_containers ≠ ∅ → calculate_cleanup_score st =
      ((st.opened_containers ∩ st.closed_containers).card : ℚ) /
        (st.opened_containers.card : ℚ)) := by
  refine ⟨?_, ?_, ?_, ?_⟩
  · simp only [track_container]
    split <;> split <;> simp
  · simp only [track_container]
    split <;> split <;> simp
  · intro h
    simp [calculate_cleanup_score, h]
  · intro h
    simp [calculate_cleanup_score, h]

/-! ### Claim C5

Claim-side grammar predicates, written from the spec's wording ("verb +
argument placeholders"), to be compared with the regex-driven
`is_valid_action`. -/

/-- A `.+$` argument: non-empty and free of newlines. -/
def dotPlusB (l : List Char) : Bool := !l.isEmpty && l.all (fun c => c ≠ '\n')

/-- `verb ++ argument` shape (`^w.+$`). -/
def argAfter (w l : List Char) : Bool := w.isPrefixOf l && dotPlusB (l.drop w.length)

/-- Scanning for the separator `m` after at least one argument character:
either `m` starts here and a `.+` argument follows, or consume one more
non-newline character. -/
def midEnd (m : List Char) : List Char → Bool
  | [] => false
  | c :: t =>
    (m.isPrefixOf (c :: t) && dotPlusB ((c :: t).drop m.length)) ||
    (c ≠ '\n' && midEnd m t)

/-- `.+ ++ m ++ .+` shape: a non-empty newline-free argument, the separator
`m`, and another such argument. -/
def midSplit (m : List Char) : List Char → Bool
  | [] => false
  | c :: t => c ≠ '\n' && midEnd m t

/-- `verb ++ argument ++ separator ++ argument` shape (`^w.+m.+$`). -/
def argMid (w m l : List Char) : Bool := w.isPrefixOf l && midSplit m (l.drop w.length)

/-- The claim's command vocabulary, amended with `toggle` (which the source's
`VALID_ACTIONS` also accepts). -/
def claimGrammarL (l : List Char) : Bool :=
  argAfter "go to ".data l ||
  argMid "take ".data " from ".data l ||
  argMid "put ".data " in/on ".data l ||
  argMid "put ".data " in ".data l ||
  argMid "put ".data " on ".data l ||
  argAfter "open ".data l ||
  argAfter "close ".data l ||
  argAfter "toggle ".data l ||
  argMid "heat ".data " with ".data l ||
  argMid "cool ".data " with ".data l ||
  argMid "clean ".data " with ".data l ||
  argAfter "use ".data l ||
  argAfter "examine ".data l ||
  (l == "look".data) ||
  (l == "inventory".data) ||
  argAfter "turn on ".data l ||
  argAfter "turn off ".data l

/-- First space-delimited word (the "verb" of a candidate command). -/
def firstWord (l : List Char) : List Char := l.takeWhile (fun c => c ≠ ' ')

/-- The verbs of the claim's vocabulary as stated (no `toggle`). -/
def claimVerbsStated : List String :=
  ["go", "take", "put", "open", "close", "heat", "cool", "clean", "use",
   "examine", "look", "inventory", "turn"]

/-- The verbs of the amended vocabulary (with `toggle`). -/
def grammarVerbs : List String := claimVerbsStated ++ ["toggle"]

lemma matchSeq_dotPlus_end : ∀ l, matchSeq [RItem.dotPlus] l = dotPlusB l := by
  intro l
  induction l with
  | nil => rfl
  | cons c t ih =>
    show dpScan (matchSeq []) (c :: t) = _
    rw [show dpScan (matchSeq []) (c :: t) =
      (c ≠ '\n' && (matchSeq [] t || dpScan (matchSeq []) t)) from rfl]
    have ih2 : dpScan (matchSeq []) t = dotPlusB t := ih
    rw [show matchSeq ([] : List RItem) t = t.isEmpty from rfl, ih2]
    cases t with
    | nil => simp [dotPlusB]
    | cons d t2 => simp [dotPlusB, List.all_cons, Bool.and_assoc]

lemma matchSeq_lit_end : ∀ w l, matchSeq [RItem.lit w] l = (l == w) := by
  intro w l
  show (w.isPrefixOf l && matchSeq [] (l.drop w.length)) = (l == w)
  rw [show matchSeq ([] : List RItem) (l.drop w.length) = (l.drop w.length).isEmpty from rfl]
  rw [Bool.eq_iff_iff]
  simp only [Bool.and_eq_true, List.isPrefixOf_iff_prefix, List.isEmpty_iff,
    List.drop_eq_nil_iff, beq_iff_eq]
  constructor
  · rintro ⟨⟨t, rfl⟩, hlen⟩
    have ht : t = [] := by
      rw [List.length_append] at hlen
      have : t.length = 0 := by omega
      exact List.length_eq_zero.mp this
    simp [ht]
  · rintro rfl
    exact ⟨List.prefix_refl l, le_rfl⟩

lemma midEnd_eq : ∀ m t, (matchSeq [RItem.lit m, RItem.dotPlus] t ||
    dpScan (matchSeq [RItem.lit m, RItem.dotPlus]) t) = midEnd m t := by
  intro m t
  induction t with
  | nil =>
    show (m.isPrefixOf [] && matchSeq [RItem.dotPlus] (List.drop m.length []) || false) = false
    rw [matchSeq_dotPlus_end]
    simp [dotPlusB]
  | cons c t ih =>
    rw [show dpScan (matchSeq [RItem.lit m, RItem.dotPlus]) (c :: t) =
      (c ≠ '\n' && (matchSeq [RItem.lit m, RItem.dotPlus] t ||
        dpScan (matchSeq [RItem.lit m, RItem.dotPlus]) t)) from rfl]
    rw [ih]
    rw [show matchSeq [RItem.lit m, RItem.dotPlus] (c :: t) =
      (m.isPrefixOf (c :: t) && matchSeq [RItem.dotPlus] ((c :: t).drop m.length)) from rfl]
    rw [matchSeq_dotPlus_end]
    rfl

lemma matchSeq_mid : ∀ m r, matchSeq [RItem.dotPlus, RItem.lit m, RItem.dotPlus] r = midSplit m r := by
  intro m r
  cases r with
  | nil => rfl
  | cons c t =>
    show dpScan (matchSeq [RItem.lit m, RItem.dotPlus]) (c :: t) = _
    rw [show dpScan (matchSeq [RItem.lit m, RItem.dotPlus]) (c :: t) =
      (c ≠ '\n' && (matchSeq [RItem.lit m, RItem.dotPlus] t ||
        dpScan (matchSeq [RItem.lit m, RItem.dotPlus]) t)) from rfl]
    rw [midEnd_eq]
    rfl

lemma matchSeq_pre_arg : ∀ w l, matchSeq [RItem.lit w, RItem.dotPlus] l = argAfter w l := by
  intro w l
  show (w.isPrefixOf l && matchSeq [RItem.dotPlus] (l.drop w.length)) = _
  rw [matchSeq_dotPlus_end]
  rfl

lemma matchSeq_pre_mid : ∀ w m l,
    matchSeq [RItem.lit w, RItem.dotPlus, RItem.lit m, RItem.dotPlus] l = argMid w m l := by
  intro w m l
  show (w.isPrefixOf l && matchSeq [RItem.dotPlus, RItem.lit m, RItem.dotPlus] (l.drop w.length)) = _
  rw [matchSeq_mid]
  rfl

lemma firstWord_append (v rest : List Char) (h : v.all (fun c => c ≠ ' ') = true) :
    firstWord (v ++ ' ' :: rest) = v := by
  induction v with
  | nil => rfl
  | cons c t ih =>
    simp only [List.all_cons, Bool.and_eq_true] at h
    simp only [List.cons_append, firstWord, List.takeWhile_cons, h.1, if_pos]
    rw [show List.takeWhile (fun c => decide (c ≠ ' ')) (t ++ ' ' :: rest) =
      firstWord (t ++ ' ' :: rest) from rfl, ih h.2]

/-- C5 counterexample: "toggle lamp" uses a verb outside the claim's stated
vocabulary, yet `is_valid` accepts it (`VALID_ACTIONS` includes
`^toggle .+$`). -/
theorem is_valid_action_counterexample :
    is_valid_action "toggle lamp" = true ∧
    firstWord (pyStrip (lowerL "toggle lamp".data)) ∉ claimVerbsStated.map String.data := by
  constructor
  · decide
  · decide

/-- C5 amended: `is_valid` accepts exactly the strings whose lower-cased trim
matches the claim's command shapes extended with `toggle`; any string whose
first word is outside this vocabulary is rejected. -/
theorem is_valid_action_grammar :
    (∀ s : String, is_valid_action s = claimGrammarL (pyStrip (lowerL s.data))) ∧
    (∀ s : String, firstWord (pyStrip (lowerL s.data)) ∉ grammarVerbs.map String.data →
      is_valid_action s = false) := by
  have part1 : ∀ s : String, is_valid_action s = claimGrammarL (pyStrip (lowerL s.data)) := by
    intro s
    show is_valid_actionL s.data = _
    unfold is_valid_actionL VALID_ACTIONS
    simp only [List.any_cons, List.any_nil, Bool.or_false]
    rw [matchSeq_pre_arg, matchSeq_pre_mid, matchSeq_pre_mid, matchSeq_pre_mid,
      matchSeq_pre_mid, matchSeq_pre_arg, matchSeq_pre_arg, matchSeq_pre_arg,
      matchSeq_pre_mid, matchSeq_pre_mid, matchSeq_pre_mid, matchSeq_pre_arg,
      matchSeq_pre_arg, matchSeq_lit_end, matchSeq_lit_end, matchSeq_pre_arg,
      matchSeq_pre_arg]
    simp only [claimGrammarL, Bool.or_assoc]
  refine ⟨part1, ?_⟩
  intro s h
  cases hval : is_valid_action s with
  | false => rfl
  | true =>
    exfalso
    apply h
    rw [part1] at hval
    set l := pyStrip (lowerL s.data) with hl
    simp only [claimGrammarL, Bool.or_eq_true, Bool.and_eq_true, argAfter, argMid,
      List.isPrefixOf_iff_prefix, beq_iff_eq] at hval
    have mem : ∀ v : String, v ∈ grammarVerbs → firstWord l = v.data →
        firstWord l ∈ grammarVerbs.map String.data := by
      intro v hv he
      rw [he]
      exact List.mem_map_of_mem String.data hv
    rcases hval with (((((((((((((((hc | hc) | hc) | hc) | hc) | hc) | hc) | hc) | hc) | hc) | hc) | hc) | hc) | hc) | hc) | hc) | hc
    · obtain ⟨⟨t, ht⟩, -⟩ := hc
      refine mem "go" (by decide) ?_
      rw [← ht, show "go to ".data ++ t = "go".data ++ ' ' :: ("to ".data ++ t) from rfl,
        firstWord_append _ _ (by decide)]
    · obtain ⟨⟨t, ht⟩, -⟩ := hc
      refine mem "take" (by decide) ?_
      rw [← ht, show "take ".data ++ t = "take".data ++ ' ' :: t from rfl,
        firstWord_append _ _ (by decide)]
    · obtain ⟨⟨t, ht⟩, -⟩ := hc
      refine mem "put" (by decide) ?_
      rw [← ht, show "put ".data ++ t = "put".data ++ ' ' :: t from rfl,
        firstWord_append _ _ (by decide)]
    · obtain ⟨⟨t, ht⟩, -⟩ := hc
      refine mem "put" (by decide) ?_
      rw [← ht, show "put ".data ++ t = "put".data ++ ' ' :: t from rfl,
        firstWord_append _ _ (by decide)]
    · obtain ⟨⟨t, ht⟩, -⟩ := hc
      refine mem "put" (by decide) ?_
      rw [← ht, show "put ".data ++ t = "put".data ++ ' ' :: t from rfl,
        firstWord_append _ _ (by decide)]
    · obtain ⟨⟨t, ht⟩, -⟩ := hc
      refine mem "open" (by decide) ?_
      rw [← ht, show "open ".data ++ t = "open".data ++ ' ' :: t from rfl,
        firstWord_append _ _ (by decide)]
    · obtain ⟨⟨t, ht⟩, -⟩ := hc
      refine mem "close" (by decide) ?_
      rw [← ht, show "close ".data ++ t = "close".data ++ ' ' :: t from rfl,
        firstWord_append _ _ (by decide)]
    · obtain ⟨⟨t, ht⟩, -⟩ := hc
      refine mem "toggle" (by decide) ?_
      rw [← ht, show "toggle ".data ++ t = "toggle".data ++ ' ' :: t from rfl,
        firstWord_append _ _ (by decide)]
    · obtain ⟨⟨t, ht⟩, -⟩ := hc
      refine mem "heat" (by decide) ?_
      rw [← ht, show "heat ".data ++ t = "heat".data ++ ' ' :: t from rfl,
        firstWord_append _ _ (by decide)]
    · obtain ⟨⟨t, ht⟩, -⟩ := hc
      refine mem "cool" (by decide) ?_
      rw [← ht, show "cool ".data ++ t = "cool".data ++ ' ' :: t from rfl,
        firstWord_append _ _ (by decide)]
    · obtain ⟨⟨t, ht⟩, -⟩ := hc
      refine mem "clean" (by decide) ?_
      rw [← ht, show "clean ".data ++ t = "clean".data ++ ' ' :: t from rfl,
        firstWord_append _ _ (by decide)]
    · obtain ⟨⟨t, ht⟩, -⟩ := hc
      refine mem "use" (by decide) ?_
      rw [← ht, show "use ".data ++ t = "use".data ++ ' ' :: t from rfl,
        firstWord_append _ _ (by decide)]
    · obtain ⟨⟨t, ht⟩, -⟩ := hc
      refine mem "examine" (by decide) ?_
      rw [← ht, show "examine ".data ++ t = "examine".data ++ ' ' :: t from rfl,
        firstWord_append _ _ (by decide)]
    · refine mem "look" (by decide) ?_
      rw [hc]
      decide
    · refine mem "inventory" (by decide) ?_
      rw [hc]
      decide
    · obtain ⟨⟨t, ht⟩, -⟩ := hc
      refine mem "turn" (by decide) ?_
      rw [← ht, show "turn on ".data ++ t = "turn".data ++ ' ' :: ("on ".data ++ t) from rfl,
        firstWord_append _ _ (by decide)]
    · obtain ⟨⟨t, ht⟩, -⟩ := hc
      refine mem "turn" (by decide) ?_
      rw [← ht, show "turn off ".data ++ t = "turn".data ++ ' ' :: ("off ".data ++ t) from rfl,
        firstWord_append _ _ (by decide)]

/-- Witness for C5 (amended): a vocabulary command is accepted, a foreign
verb is rejected. -/
theorem is_valid_action_grammar_witness :
    (is_valid_action "go to desk 1" = claimGrammarL (pyStrip (lowerL "go to desk 1".data)) ∧
      is_valid_action "go to desk 1" = true) ∧
    (firstWord (pyStrip (lowerL "dance wildly".data)) ∉ grammarVerbs.map String.data) ∧
    is_valid_action "dance wildly" = false := by
  refine ⟨⟨is_valid_action_grammar.1 "go to desk 1", by decide⟩, by decide, ?_⟩
  exact is_valid_action_grammar.2 "dance wildly" (by decide)

/-- Witness for C6 (amended): opening "fridge" and "drawer" but closing only
"fridge" scores 1/2; with no opens the score is 1. -/
theorem track_and_cleanup_spec_witness :
    ({"fridge", "drawer"} : Finset String) ≠ ∅ ∧
    calculate_cleanup_score
      { initialState with opened_containers := {"fridge", "drawer"},
                          closed_containers := {"fridge"} } = 1 / 2 ∧
    calculate_cleanup_score initialState = 1 := by
  have h2 := (track_and_cleanup_spec
      { initialState with opened_containers := {"fridge", "drawer"},
                          closed_containers := {"fridge"} } "").2.2.2 (by decide)
  have h1 := (track_and_cleanup_spec initialState "").2.2.1 rfl
  refine ⟨by decide, ?_, h1⟩
  rw [h2]
  rw [show (({"fridge", "drawer"} : Finset String) ∩ {"fridge"}).card = 1 from by decide]
  rw [show ({"fridge", "drawer"} : Finset String).card = 2 from by decide]
  norm_num

/-! ### Claim C7

Spec-side clause list for the reflection cascade, written from the spec's
rule descriptions, to be compared with the let-chain of
`summarize_trajectory`. -/

/-- The first action (in trajectory order) whose total occurrence count
reaches 3. -/
def firstRepeatedAction (acts : List String) : Option String :=
  acts.find? (fun x => decide (3 ≤ acts.count x))

/-- Rule 1: cleanup lesson. -/
def cleanupClause (a : Agent) : List String :=
  if calculate_cleanup_score a.state < 1 then
    ["Always close containers/appliances after use."]
  else []

/-- Rule 2: repetition lesson, naming the first action reaching the
threshold in trajectory order. -/
def repetitionClause (acts : List String) : List String :=
  match firstRepeatedAction acts with
  | some r => ["Avoid repeating actions like \x27" ++ r ++ "\x27 excessively."]
  | none => []

/-- Rule 3: navigation-cycle lesson. -/
def cycleClause (acts : List String) : List String :=
  if hasABAB acts then ["Avoid navigation loops (going back and forth)."] else []

/-- Rules 4/5: success or failure lesson from the final transition. -/
def outcomeClause (last : TransRec) : List String :=
  if 0 < last.reward then
    ["Success: completed with \x27" ++ last.action ++ "\x27."]
  else if last.done then
    (if containsSub "clean".data (lowerL last.observation.data) ||
        containsSub "dirty".data (lowerL last.observation.data) then
      ["Verify object state (clean/dirty) before placing."]
    else if containsSub "hot".data (lowerL last.observation.data) ||
        containsSub "cold".data (lowerL last.observation.data) then
      ["Verify temperature state before placing."]
    else ["Try alternative exploration paths when stuck."])
  else []

/-- The full cascade: rules in priority order, generic rule 6 when none
fired. -/
def specClauses (a : Agent) : List String :=
  match a.state.trajectory.getLast? with
  | none => []
  | some last =>
    let acts := a.state.trajectory.map (fun t => t.action)
    let base := cleanupClause a ++ repetitionClause acts ++ cycleClause acts ++
      outcomeClause last
    if base.isEmpty then ["Continue systematic exploration."] else base

/-- Keys of the Python dict, i.e. the actions in order of first
occurrence. -/
def uniqueFirst : List String → List String
  | [] => []
  | a :: t => a :: (uniqueFirst t).filter (fun x => x != a)

lemma mem_uniqueFirst : ∀ (l : List String) (x : String), x ∈ uniqueFirst l ↔ x ∈ l := by
  intro l
  induction l with
  | nil => simp [uniqueFirst]
  | cons a t ih =>
    intro x
    simp only [uniqueFirst, List.mem_cons, List.mem_filter, bne_iff_ne, ih]
    by_cases hx : x = a
    · simp [hx]
    · simp [hx]

lemma nodup_uniqueFirst : ∀ l : List String, (uniqueFirst l).Nodup := by
  intro l
  induction l with
  | nil => simp [uniqueFirst]
  | cons a t ih =>
    simp only [uniqueFirst, List.nodup_cons]
    constructor
    · intro hmem
      have := (List.mem_filter.mp hmem).2
      simp at this
    · exact ih.filter _

lemma uniqueFirst_append : ∀ (p : List String) (a : String),
    uniqueFirst (p ++ [a]) =
      if a ∈ p then uniqueFirst p else uniqueFirst p ++ [a] := by
  intro p
  induction p with
  | nil => intro a; simp [uniqueFirst]
  | cons x t ih =>
    intro a
    show x :: (uniqueFirst (t ++ [a])).filter (fun y => y != x) = _
    rw [ih a]
    by_cases hat : a ∈ t
    · rw [if_pos hat, if_pos (List.mem_cons_of_mem x hat)]
      rfl
    · rw [if_neg hat]
      by_cases hax : a = x
      · subst hax
        rw [if_pos (List.mem_cons_self a t)]
        simp [uniqueFirst, List.filter_append]
      · rw [if_neg (by simp [hax, hat])]
        simp [uniqueFirst, List.filter_append, bne_iff_ne, hax]

lemma bump_map_not_mem (a : String) (f : String → Nat) :
    ∀ keys : List String, a ∉ keys →
      bump a (keys.map (fun k => (k, f k))) = keys.map (fun k => (k, f k)) ++ [(a, 1)] := by
  intro keys
  induction keys with
  | nil => intro _; rfl
  | cons k t ih =>
    intro ha
    have hka : k ≠ a := fun h => ha (h ▸ List.mem_cons_self k t)
    simp only [List.map_cons, bump, if_neg hka, List.cons_append]
    rw [ih (fun h => ha (List.mem_cons_of_mem k h))]

lemma bump_map_mem (a : String) (f : String → Nat) :
    ∀ keys : List String, keys.Nodup → a ∈ keys →
      bump a (keys.map (fun k => (k, f k))) =
        keys.map (fun k => (k, if k = a then f k + 1 else f k)) := by
  intro keys
  induction keys with
  | nil => intro _ ha; simp at ha
  | cons k t ih =>
    intro hnd ha
    simp only [List.nodup_cons] at hnd
    by_cases hka : k = a
    · subst hka
      simp only [List.map_cons, bump, eq_self_iff_true, if_true]
      congr 1
      apply List.map_congr_left
      intro y hy
      have hyk : y ≠ k := fun h => hnd.1 (h ▸ hy)
      simp [hyk]
    · have hat : a ∈ t := by
        rcases List.mem_cons.mp ha with h | h
        · exact absurd h.symm hka
        · exact h
      simp only [List.map_cons, bump, if_neg hka, if_neg hka]
      rw [ih hnd.2 hat]

lemma dictCounts_aux : ∀ (l p : List String),
    List.foldl (fun acc x => bump x acc)
        ((uniqueFirst p).map (fun k => (k, p.count k))) l
      = (uniqueFirst (p ++ l)).map (fun k => (k, (p ++ l).count k)) := by
  intro l
  induction l with
  | nil => intro p; simp
  | cons a t ih =>
    intro p
    simp only [List.foldl_cons]
    have step : bump a ((uniqueFirst p).map (fun k => (k, p.count k)))
        = (uniqueFirst (p ++ [a])).map (fun k => (k, (p ++ [a]).count k)) := by
      rw [uniqueFirst_append]
      by_cases ha : a ∈ p
      · rw [if_pos ha]
        rw [bump_map_mem a _ (uniqueFirst p) (nodup_uniqueFirst p)
          ((mem_uniqueFirst p a).mpr ha)]
        apply List.map_congr_left
        intro k _
        simp only [List.count_append]
        by_cases hk : k = a
        · subst hk
          simp [List.count_singleton]
        · have hc0 : ([a].count k) = 0 := by
            simp [List.count_singleton]
            exact fun h => hk h.symm
          rw [hc0, if_neg hk]
          simp
      · rw [if_neg ha]
        rw [bump_map_not_mem a _ (uniqueFirst p)
          (fun h => ha ((mem_uniqueFirst p a).mp h))]
        rw [List.map_append]
        congr 1
        · apply List.map_congr_left
          intro k hk
          have hka : k ≠ a := by
            intro h
            exact ha (h ▸ (mem_uniqueFirst p k).mp hk)
          simp only [List.count_append]
          have hc0 : ([a].count k) = 0 := by
            simp [List.count_singleton]
            exact fun h => hka h.symm
          rw [hc0]
          simp
        · simp only [List.map_cons, List.map_nil]
          have h0 : p.count a = 0 := List.count_eq_zero.mpr ha
          simp [List.count_append, h0, List.count_singleton]
    rw [step, ih (p ++ [a])]
    simp [List.append_assoc]

lemma dictCounts_eq (l : List String) :
    dictCounts l = (uniqueFirst l).map (fun k => (k, l.count k)) := by
  have h := dictCounts_aux l []
  simpa [dictCounts, uniqueFirst] using h

lemma head?_filter_eq_find? {α : Type} (p : α → Bool) :
    ∀ l : List α, (l.filter p).head? = l.find? p := by
  intro l
  induction l with
  | nil => rfl
  | cons x t ih =>
    cases hp : p x with
    | true =>
      rw [List.filter_cons, if_pos hp, List.find?_cons_of_pos _ hp]
      rfl
    | false =>
      rw [List.filter_cons, if_neg (by simp [hp]), List.find?_cons_of_neg _ (by simp [hp])]
      exact ih

lemma find?_filter_ne (a : String) (P : String → Bool) (hPa : P a = false) :
    ∀ l : List String, (l.filter (fun x => x != a)).find? P = l.find? P := by
  intro l
  induction l with
  | nil => rfl
  | cons x t ih =>
    by_cases hxa : x = a
    · subst hxa
      rw [List.filter_cons, if_neg (by simp)]
      rw [List.find?_cons_of_neg _ (by simp [hPa])]
      exact ih
    · rw [List.filter_cons, if_pos (show (x != a) = true from by simp [hxa])]
      cases hP : P x with
      | true => rw [List.find?_cons_of_pos _ hP, List.find?_cons_of_pos _ hP]
      | false =>
        rw [List.find?_cons_of_neg _ (by simp [hP]), List.find?_cons_of_neg _ (by simp [hP])]
        exact ih

lemma find?_uniqueFirst (P : String → Bool) :
    ∀ l : List String, (uniqueFirst l).find? P = l.find? P := by
  intro l
  induction l with
  | nil => rfl
  | cons a t ih =>
    simp only [uniqueFirst]
    cases hP : P a with
    | true => rw [List.find?_cons_of_pos _ hP, List.find?_cons_of_pos _ hP]
    | false =>
      rw [List.find?_cons_of_neg _ (by simp [hP]), List.find?_cons_of_neg _ (by simp [hP])]
      rw [find?_filter_ne a P hP, ih]

/-- The Python dict pipeline (`filter count ≥ 3` over insertion-ordered
counts, first key) picks exactly the first action, in trajectory order,
whose total count reaches 3. -/
lemma repeated_head_eq (acts : List String) :
    ((((dictCounts acts).filter (fun p => 3 ≤ p.2)).map Prod.fst)).head? =
      firstRepeatedAction acts := by
  rw [dictCounts_eq, List.filter_map, List.map_map]
  rw [List.head?_map]
  rw [head?_filter_eq_find?]
  rw [show ((fun p : String × Nat => decide (3 ≤ p.2)) ∘ fun k => (k, acts.count k)) =
    (fun x => decide (3 ≤ acts.count x)) from rfl]
  rw [find?_uniqueFirst]
  unfold firstRepeatedAction
  cases h : acts.find? (fun x => decide (3 ≤ acts.count x)) <;> rfl

lemma if_append_distrib (c : Prop) [Decidable c] (L : List String) (x : String) :
    (if c then L ++ [x] else L) = L ++ (if c then [x] else []) := by
  split <;> simp

lemma match_append_distrib (o : Option String) (L : List String) (f : String → String) :
    (match o with | some r => L ++ [f r] | none => L) =
      L ++ (match o with | some r => [f r] | none => []) := by
  cases o <;> simp

lemma ifchain_distrib (c1 c2 c3 c4 : Prop) [Decidable c1] [Decidable c2]
    [Decidable c3] [Decidable c4] (L : List String) (s1 s2 s3 s4 : String) :
    (if c1 then L ++ [s1]
     else if c2 then (if c3 then L ++ [s2] else if c4 then L ++ [s3] else L ++ [s4])
     else L) =
      L ++ (if c1 then [s1]
            else if c2 then (if c3 then [s2] else if c4 then [s3] else [s4])
            else []) := by
  split
  · simp
  · split
    · split
      · simp
      · split <;> simp
    · simp

/-- `summarize_trajectory` equals the spec-side cascade: the literal string
on an empty trajectory, otherwise the first two clauses joined by single
spaces. -/
lemma summarize_eq_spec (a : Agent) :
    summarize_trajectory a =
      (match a.state.trajectory.getLast? with
       | none => "No trajectory recorded."
       | some _ => joinSep " " ((specClauses a).take 2)) := by
  unfold summarize_trajectory specClauses
  dsimp only
  cases hl : a.state.trajectory.getLast? with
  | none => rfl
  | some last =>
    dsimp only
    rw [repeated_head_eq]
    rw [match_append_distrib (firstRepeatedAction (a.state.trajectory.map (fun t => t.action)))]
    rw [if_append_distrib, if_append_distrib]
    rw [ifchain_distrib]
    simp only [List.nil_append, List.append_assoc]
    rfl

lemma contains_second (x msg : String) :
    containsSub msg.data (joinSep " " [x, msg]).data = true := by
  show containsSub msg.data (x ++ " " ++ msg).data = true
  rw [String.data_append]
  exact containsSub_append_left _ _ _ (containsSub_self _)

lemma contains_head_joinSep (msg : String) (rest : List String) :
    containsSub msg.data (joinSep " " (msg :: rest)).data = true := by
  obtain ⟨suf, hs⟩ := joinSep_cons " " msg rest
  rw [hs, String.data_append]
  exact containsSub_append_right _ _ _ (containsSub_self _)

lemma specClauses_ne_nil (a : Agent) (last : TransRec)
    (hl : a.state.trajectory.getLast? = some last) : specClauses a ≠ [] := by
  unfold specClauses
  rw [hl]
  dsimp only
  split
  · simp
  · rename_i h
    simpa [List.isEmpty_iff] using h

lemma mem_specClauses_ne_empty (a : Agent) : ∀ x ∈ specClauses a, x ≠ "" := by
  intro x hx
  unfold specClauses at hx
  rcases hgl : a.state.trajectory.getLast? with _ | last
  · rw [hgl] at hx
    simp at hx
  · rw [hgl] at hx
    dsimp only at hx
    split at hx
    · simp at hx
      subst hx
      decide
    · rcases List.mem_append.mp hx with hx1 | hD
      · rcases List.mem_append.mp hx1 with hx2 | hC
        · rcases List.mem_append.mp hx2 with hA | hB
          · unfold cleanupClause at hA
            split at hA
            · simp at hA; subst hA; decide
            · simp at hA
          · unfold repetitionClause at hB
            rcases hfr : firstRepeatedAction (a.state.trajectory.map (fun t => t.action)) with
              _ | r
            · rw [hfr] at hB; simp at hB
            · rw [hfr] at hB
              simp at hB
              subst hB
              exact append_ne_empty_left _ _ (append_ne_empty_left _ _ (by decide))
        · unfold cycleClause at hC
          split at hC
          · simp at hC; subst hC; decide
          · simp at hC
      · unfold outcomeClause at hD
        split at hD
        · simp at hD; subst hD
          exact append_ne_empty_left _ _ (append_ne_empty_left _ _ (by decide))
        · split at hD
          · split at hD
            · simp at hD; subst hD; decide
            · split at hD
              · simp at hD; subst hD; decide
              · simp at hD; subst hD; decide
          · simp at hD

lemma joinSep_take2_ne_empty (L : List String) (hne : L ≠ [])
    (hmem : ∀ x ∈ L, x ≠ "") : joinSep " " (L.take 2) ≠ "" := by
  match L, hne with
  | [x], _ =>
    show x ≠ ""
    exact hmem x (List.mem_singleton_self x)
  | x :: y :: t, _ =>
    show x ++ " " ++ y ≠ ""
    exact append_ne_empty_left _ _ (append_ne_empty_left _ _ (hmem x (List.mem_cons_self _ _)))

lemma summarize_ne_empty (a : Agent) : summarize_trajectory a ≠ "" := by
  rw [summarize_eq_spec]
  rcases hl : a.state.trajectory.getLast? with _ | last
  · show "No trajectory recorded." ≠ ""
    decide
  · exact joinSep_take2_ne_empty _ (specClauses_ne_nil a last hl) (mem_specClauses_ne_empty a)

lemma spec_take2_contains (a : Agent) (last : TransRec)
    (hl : a.state.trajectory.getLast? = some last) (msg : String)
    (hrep : repetitionClause (a.state.trajectory.map (fun t => t.action)) = [msg]) :
    containsSub msg.data (joinSep " " ((specClauses a).take 2)).data = true := by
  unfold specClauses
  rw [hl]
  dsimp only
  rw [hrep]
  by_cases hc : calculate_cleanup_score a.state < 1
  · rw [show cleanupClause a = ["Always close containers/appliances after use."] from by
      simp [cleanupClause, hc]]
    rw [if_neg (by simp)]
    exact contains_second _ msg
  · rw [show cleanupClause a = [] from by simp [cleanupClause, hc]]
    rw [if_neg (by simp)]
    exact contains_head_joinSep msg _

/-- C7: `summarize` returns the literal "No trajectory recorded." on an
empty trajectory; otherwise it equals the first two clauses of the fixed
priority cascade (cleanup, repetition, cycle, success/failure, generic)
joined by a single space; and whenever some action occurs at least 3 times,
the repetition clause exists and names the first action (in trajectory
order) reaching the threshold, and that clause's text appears in the
output. -/
theorem summarize_trajectory_claim (a : Agent) :
    (a.state.trajectory = [] → summarize_trajectory a = "No trajectory recorded.") ∧
    (a.state.trajectory ≠ [] →
      summarize_trajectory a = joinSep " " ((specClauses a).take 2)) ∧
    (∀ x, x ∈ a.state.trajectory.map (fun t => t.action) →
      3 ≤ (a.state.trajectory.map (fun t => t.action)).count x →
      ∃ r, firstRepeatedAction (a.state.trajectory.map (fun t => t.action)) = some r ∧
        containsSub ("Avoid repeating actions like \x27" ++ r ++ "\x27 excessively.").data
          (summarize_trajectory a).data = true) := by
  refine ⟨?_, ?_, ?_⟩
  · intro h
    rw [summarize_eq_spec]
    rw [show a.state.trajectory.getLast? = none from by simp [h]]
  · intro h
    rw [summarize_eq_spec]
    obtain ⟨last, hl⟩ : ∃ last, a.state.trajectory.getLast? = some last := by
      cases hgl : a.state.trajectory.getLast? with
      | none => exact absurd (List.getLast?_eq_none_iff.mp hgl) h
      | some last => exact ⟨last, rfl⟩
    rw [hl]
  · intro x hx hcount
    have hfind : ∃ r,
        (a.state.trajectory.map (fun t => t.action)).find?
          (fun y => decide (3 ≤ (a.state.trajectory.map (fun t => t.action)).count y)) = some r := by
      apply Option.isSome_iff_exists.mp
      rw [List.find?_isSome]
      exact ⟨x, hx, by simpa using hcount⟩
    obtain ⟨r, hr⟩ := hfind
    refine ⟨r, hr, ?_⟩
    have htne : a.state.trajectory ≠ [] := by
      intro he
      rw [he] at hx
      simp at hx
    obtain ⟨last, hl⟩ : ∃ last, a.state.trajectory.getLast? = some last := by
      cases hgl : a.state.trajectory.getLast? with
      | none => exact absurd (List.getLast?_eq_none_iff.mp hgl) htne
      | some last => exact ⟨last, rfl⟩
    rw [summarize_eq_spec, hl]
    exact spec_take2_contains a last hl _
      (by simp [repetitionClause, firstRepeatedAction, hr])

/-- A concrete agent whose episode repeated "look" three times. -/
def testTraj3 : Agent :=
  { testAgent with
    state := { initialState with
      trajectory := [TransRec.mk "o1" "look" 0 false none,
                     TransRec.mk "o2" "look" 0 false none,
                     TransRec.mk "o3" "look" 0 false none] } }

/-- Witness for C7: three repeated "look" actions produce the repetition
clause naming "look". -/
theorem summarize_trajectory_witness :
    testTraj3.state.trajectory ≠ [] ∧
    summarize_trajectory testTraj3 = joinSep " " ((specClauses testTraj3).take 2) ∧
    (∃ r, firstRepeatedAction (testTraj3.state.trajectory.map (fun t => t.action)) = some r ∧
      containsSub ("Avoid repeating actions like \x27" ++ r ++ "\x27 excessively.").data
        (summarize_trajectory testTraj3).data = true) ∧
    summarize_trajectory testTraj3 = "Avoid repeating actions like \x27look\x27 excessively." := by
  refine ⟨by decide, (summarize_trajectory_claim testTraj3).2.1 (by decide),
    (summarize_trajectory_claim testTraj3).2.2 "look" (by decide) (by decide), by decide⟩

/-! ### Claim C2 -/

@[simp] lemma track_container_step (st : AgentState) (action : String) :
    (track_container st action).step = st.step := by
  simp only [track_container]
  split <;> split <;> rfl

@[simp] lemma track_container_history (st : AgentState) (action : String) :
    (track_container st action).history = st.history := by
  simp only [track_container]
  split <;> split <;> rfl

@[simp] lemma track_container_trajectory (st : AgentState) (action : String) :
    (track_container st action).trajectory = st.trajectory := by
  simp only [track_container]
  split <;> split <;> rfl

@[simp] lemma track_container_last_observation (st : AgentState) (action : String) :
    (track_container st action).last_observation = st.last_observation := by
  simp only [track_container]
  split <;> split <;> rfl

lemma build_prompt_contains_head (a : Agent) (lesson : String) (rest : List String)
    (hrefl : a.reflections = lesson :: rest) (hmax : 1 ≤ a.max_reflections) :
    containsSub lesson.data (build_system_prompt a).data = true := by
  obtain ⟨m, hm⟩ : ∃ m, a.max_reflections = m + 1 := ⟨a.max_reflections - 1, by omega⟩
  unfold build_system_prompt recent_lessons
  rw [hrefl, hm]
  simp only [List.isEmpty_cons, Bool.false_eq_true, if_false, List.take_succ_cons]
  obtain ⟨suf, hs⟩ := joinSep_cons "\n- " lesson (rest.take m)
  rw [hs]
  rw [if_pos (append_ne_empty_left _ _ (by decide))]
  simp only [String.data_append]
  apply containsSub_append_left
  apply containsSub_append_left
  apply containsSub_append_right
  exact containsSub_self _

/-- C2: every `observe` call appends exactly one transition record (built
from the pending observation) to the trajectory and increments `step` by
one; when `done` is true and `max_reflections` is positive, the reflection
store's first element is afterwards a non-empty lesson, and the system
prompt built by the next `reset` (the first history entry, of role
"system") contains that lesson as a substring. -/
theorem observe_appends_and_reflects (a : Agent) (action : String) (reward : ℚ)
    (don : Bool) (fb : Option String) :
    ((observe a action reward don fb).state.trajectory =
      a.state.trajectory ++ [TransRec.mk a.state.last_observation action reward don fb]) ∧
    ((observe a action reward don fb).state.step = a.state.step + 1) ∧
    (don = true → 1 ≤ a.max_reflections →
      ∃ lesson, (observe a action reward don fb).reflections.head? = some lesson ∧
        lesson ≠ "" ∧
        ∀ t : String,
          ((reset (observe a action reward don fb) t).2.state.history.getD 0
            (Msg.mk "" "")).role = "system" ∧
          containsSub lesson.data
            (((reset (observe a action reward don fb) t).2.state.history.getD 0
              (Msg.mk "" "")).content).data = true) := by
  refine ⟨?_, ?_, ?_⟩
  · simp only [observe]
    rw [apply_ite (fun ag : Agent => ag.state.trajectory)]
    dsimp only
    rw [apply_ite (fun st : AgentState => st.trajectory),
      apply_ite (fun st : AgentState => st.last_observation)]
    simp
  · simp only [observe]
    rw [apply_ite (fun ag : Agent => ag.state.step)]
    dsimp only
    rw [apply_ite (fun st : AgentState => st.step)]
    simp
  · intro hdon hmax
    subst hdon
    obtain ⟨m, hm⟩ : ∃ m, a.max_reflections = m + 1 := ⟨a.max_reflections - 1, by omega⟩
    refine ⟨summarize_trajectory
      { a with state :=
        { (if a.track_cleanup then
            track_container
              { a.state with step := a.state.step + 1, last_reward := reward, done := true }
              action
          else
            { a.state with step := a.state.step + 1, last_reward := reward, done := true }) with
          trajectory :=
            (if a.track_cleanup then
              track_container
                { a.state with step := a.state.step + 1, last_reward := reward, done := true }
                action
            else
              { a.state with step := a.state.step + 1, last_reward := reward, done := true }).trajectory ++
            [TransRec.mk
              (if a.track_cleanup then
                track_container
                  { a.state with step := a.state.step + 1, last_reward := reward, done := true }
                  action
              else
                { a.state with step := a.state.step + 1, last_reward := reward, done := true }).last_observation
              action reward true fb] } }, ?_, ?_, ?_⟩
    · show (add_reflection a.reflections a.max_reflections _).head? = _
      rw [add_reflection_take _ _ _ (summarize_ne_empty _), hm, List.take_succ_cons]
      rfl
    · exact summarize_ne_empty _
    · intro t
      refine ⟨rfl, ?_⟩
      show containsSub _ (build_system_prompt (observe a action reward true fb)).data = true
      apply build_prompt_contains_head (observe a action reward true fb) _
        (a.reflections.take m)
      · show add_reflection a.reflections a.max_reflections _ = _
        rw [add_reflection_take _ _ _ (summarize_ne_empty _), hm, List.take_succ_cons]
      · show 1 ≤ a.max_reflections
        exact hmax

/-- Witness for C2: a completed episode on a fresh agent records one
transition, bumps the step, stores a non-empty lesson up front, and the next
reset's system prompt quotes it. -/
theorem observe_appends_and_reflects_witness :
    ((observe testAgent "look" 1 true none).state.trajectory =
      testAgent.state.trajectory ++ [TransRec.mk "" "look" 1 true none]) ∧
    ((observe testAgent "look" 1 true none).state.step = 1) ∧
    (∃ lesson, (observe testAgent "look" 1 true none).reflections.head? = some lesson ∧
      lesson ≠ "" ∧
      ((reset (observe testAgent "look" 1 true none) "Obs1").2.state.history.getD 0
        (Msg.mk "" "")).role = "system" ∧
      containsSub lesson.data
        (((reset (observe testAgent "look" 1 true none) "Obs1").2.state.history.getD 0
          (Msg.mk "" "")).content).data = true) := by
  have h := observe_appends_and_reflects testAgent "look" 1 true none
  obtain ⟨lesson, h1, h2, h3⟩ := h.2.2 rfl (by decide)
  exact ⟨h.1, h.2.1, lesson, h1, h2, (h3 "Obs1").1, (h3 "Obs1").2⟩

end WhiteAgent
